import Mathlib

/-!
Verification development for the vscode-huff macro debugging pipeline
(src/features/debugger/macro/macroDebugger.js and src/features/viewer/macroDebugger.js).

Strings are modelled as `List Char`; JavaScript string operations (template
literals, `String.prototype.replace` with the concrete regular expressions
appearing in the source, `Array.prototype.reverse`, `Array.prototype.join`)
are translated into executable Lean functions over `List Char`.
-/

namespace VsHuff

/-- Character list of a string literal. -/
def str (x : String) : List Char := x.data

/-- Does `needle` occur as a contiguous substring of `hay`? -/
def strContains (needle : List Char) : List Char → Bool
  | [] => needle.isEmpty
  | c :: cs => needle.isPrefixOf (c :: cs) || strContains needle cs

/-- Number of positions of `hay` at which `needle` occurs. -/
def countStr (needle : List Char) : List Char → Nat
  | [] => if needle.isEmpty then 1 else 0
  | c :: cs => (if needle.isPrefixOf (c :: cs) then 1 else 0) + countStr needle cs

theorem strContains_of_isPrefixOf {n l : List Char} (h : n.isPrefixOf l = true) :
    strContains n l = true := by
  cases l with
  | nil =>
    cases n with
    | nil => rfl
    | cons c cs => simp [List.isPrefixOf] at h
  | cons c cs => simp [strContains, h]

theorem strContains_append_right (n a b : List Char) (h : strContains n b = true) :
    strContains n (a ++ b) = true := by
  induction a with
  | nil => simpa using h
  | cons c cs ih => simp [strContains, ih]

theorem strContains_append_left (n a b : List Char) (h : strContains n a = true) :
    strContains n (a ++ b) = true := by
  induction a with
  | nil =>
    simp [strContains, List.isEmpty_iff] at h
    subst h
    exact strContains_of_isPrefixOf (by simp [List.isPrefixOf])
  | cons c cs ih =>
    simp only [strContains, Bool.or_eq_true] at h
    rcases h with h | h
    · have : n <+: (c :: cs) ++ b :=
        (List.isPrefixOf_iff_prefix.mp h).trans (List.prefix_append _ _)
      simp only [List.cons_append]
      exact strContains_of_isPrefixOf (List.isPrefixOf_iff_prefix.mpr (by simpa using this))
    · simp [strContains, ih h]

/-- A substring occurrence exhibited by an explicit split. -/
theorem strContains_of_split {n l : List Char} (x y : List Char) (h : l = x ++ n ++ y) :
    strContains n l = true := by
  subst h
  rw [List.append_assoc]
  exact strContains_append_right _ _ _
    (strContains_of_isPrefixOf (List.isPrefixOf_iff_prefix.mpr (List.prefix_append _ _)))

/-- A needle whose head character never occurs in `a` does not occur in `a`. -/
theorem strContains_eq_false_of_head_notMem (c : Char) (m a : List Char) (h : c ∉ a) :
    strContains (c :: m) a = false := by
  induction a with
  | nil => rfl
  | cons d a2 ih =>
    have hcd : c ≠ d := by
      intro hEq
      exact h (by simp [hEq])
    have h2 : c ∉ a2 := fun hm => h (List.mem_cons_of_mem _ hm)
    simp [strContains, List.isPrefixOf, ih h2, hcd]

/-- Occurrence scan distributes over an append whose left part avoids the head
character of the needle. -/
theorem strContains_append_eq_false_of_head (c : Char) (m a b : List Char)
    (ha : c ∉ a) (hb : strContains (c :: m) b = false) :
    strContains (c :: m) (a ++ b) = false := by
  induction a with
  | nil => simpa using hb
  | cons d a2 ih =>
    have hcd : c ≠ d := by
      intro hEq
      exact ha (by simp [hEq])
    have h2 : c ∉ a2 := fun hm => ha (List.mem_cons_of_mem _ hm)
    simp [strContains, List.isPrefixOf, ih h2, hcd]

/-- General negative append lemma: no occurrence inside `a`, none inside `b`,
and no occurrence spanning the junction. -/
theorem strContains_append_eq_false (n a b : List Char)
    (ha : strContains n a = false)
    (hspan : ∀ k, 0 < k → k < n.length → (n.take k).isSuffixOf a = true →
      (n.drop k).isPrefixOf b = false)
    (hb : strContains n b = false) :
    strContains n (a ++ b) = false := by
  induction a with
  | nil => simpa using hb
  | cons d a2 ih =>
    have ha2 : strContains n a2 = false := by
      by_contra hcon
      rw [Bool.not_eq_false] at hcon
      have h1 : strContains n (d :: a2) = true := by
        simp [strContains, hcon]
      rw [h1] at ha
      simp at ha
    have hspan2 : ∀ k, 0 < k → k < n.length → (n.take k).isSuffixOf a2 = true →
        (n.drop k).isPrefixOf b = false := by
      intro k hk1 hk2 hsuf
      apply hspan k hk1 hk2
      rw [List.isSuffixOf_iff_suffix] at hsuf ⊢
      exact hsuf.trans (List.suffix_cons d a2)
    have hrec := ih ha2 hspan2
    have hhead : n.isPrefixOf (d :: (a2 ++ b)) = false := by
      by_contra hcon
      rw [Bool.not_eq_false, List.isPrefixOf_iff_prefix, ← List.cons_append] at hcon
      obtain ⟨t, ht⟩ := hcon
      by_cases hlen : n.length ≤ (d :: a2).length
      · have hpre : n <+: d :: a2 := by
          have h1 : n = List.take n.length ((d :: a2) ++ b) := by
            rw [← ht]
            simp
          rw [List.take_append_of_le_length hlen] at h1
          exact h1 ▸ List.take_prefix _ _
        have h2 : strContains n (d :: a2) = true :=
          strContains_of_isPrefixOf (List.isPrefixOf_iff_prefix.mpr hpre)
        rw [h2] at ha
        simp at ha
      · push_neg at hlen
        have hk1 : 0 < (d :: a2).length := by simp
        have htake : n.take (d :: a2).length = d :: a2 := by
          have h1 : (n ++ t).take (d :: a2).length = ((d :: a2) ++ b).take (d :: a2).length := by
            rw [ht]
          rw [List.take_append_of_le_length (le_of_lt hlen),
            List.take_append_of_le_length (le_refl _), List.take_length] at h1
          exact h1
        have hdrop : n.drop (d :: a2).length ++ t = b := by
          have h1 : (n ++ t).drop (d :: a2).length = ((d :: a2) ++ b).drop (d :: a2).length := by
            rw [ht]
          rw [List.drop_append_of_le_length (le_of_lt hlen),
            List.drop_append_of_le_length (le_refl _), List.drop_length] at h1
          simpa using h1
        have hfalse := hspan (d :: a2).length hk1 hlen
          (by rw [htake, List.isSuffixOf_iff_suffix])
        have htrue : (n.drop (d :: a2).length).isPrefixOf b = true :=
          List.isPrefixOf_iff_prefix.mpr ⟨t, hdrop⟩
        rw [htrue] at hfalse
        simp at hfalse
    show (n.isPrefixOf (d :: (a2 ++ b)) || strContains n (a2 ++ b)) = false
    rw [hrec, hhead]
    rfl

/-! ## JavaScript regular expression fragments used by the source -/

/-- JavaScript `\s` (the characters relevant to this code base). -/
def jsWs (c : Char) : Bool :=
  c = ' ' || c = '\t' || c = '\n' || c = '\r' || c = '\x0b' || c = '\x0c' ||
  c = '\xa0' || c = Char.ofNat 0xfeff

/-- Line terminators, which an unflagged JavaScript dot does not match. -/
def jsBreak (c : Char) : Bool :=
  c = '\n' || c = '\r' || c = Char.ofNat 0x2028 || c = Char.ofNat 0x2029

/-- Match a literal at the head, returning the unconsumed rest. -/
def litP (pat l : List Char) : Option (List Char) :=
  if pat.isPrefixOf l then some (l.drop pat.length) else none

/-- JavaScript `\s?` immediately followed by a literal whose first character is
not whitespace: when the head is whitespace the option must consume it. -/
def wsOptThenLit (pat l : List Char) : Option (List Char) :=
  match l with
  | [] => litP pat []
  | c :: cs => if jsWs c then litP pat cs else litP pat (c :: cs)

/-- JavaScript `\s+` immediately followed by a literal whose first character is
not whitespace: the maximal whitespace run (at least one character) is consumed. -/
def wsPlusThenLit (pat l : List Char) : Option (List Char) :=
  match l with
  | [] => none
  | c :: cs => if jsWs c then litP pat (cs.dropWhile jsWs) else none

/-- Lazy `[\s\S]*?` up to and through the first occurrence of `c`. -/
def upThroughChar (c : Char) (l : List Char) : Option (List Char) :=
  if l.contains c then some ((l.dropWhile (fun d => d != c)).drop 1) else none

/-- Text after the last occurrence of `c` (the whole list when `c` is absent). -/
def afterLastChar (c : Char) (l : List Char) : List Char :=
  (l.reverse.takeWhile (fun d => d != c)).reverse

/-! ## Stripping entry points and includes (`createCompiledMacro`, lines 119-126) -/

/-- Match of `#define\s?macro\s?MAIN[\s\S]*?\x7b[\s\S]*?\x7d` at the head,
returning the unconsumed rest. -/
def matchMainAt (l : List Char) : Option (List Char) := do
  let r1 ← litP (str "#define") l
  let r2 ← wsOptThenLit (str "macro") r1
  let r3 ← wsOptThenLit (str "MAIN") r2
  let r4 ← upThroughChar '\x7b' r3
  upThroughChar '\x7d' r4

/-- Fuel-driven scan of the global replace of the MAIN pattern by the empty
string.  Every match consumes at least one character, so any fuel of at least
the length of the input realises the JavaScript left-to-right scan. -/
def replaceMainAllGo : Nat → List Char → List Char
  | 0, l => l
  | _ + 1, [] => []
  | fuel + 1, c :: cs =>
    match matchMainAt (c :: cs) with
    | some rest => replaceMainAllGo fuel rest
    | none => c :: replaceMainAllGo fuel cs

/-- JavaScript `content.replace(/#define\s?macro\s?MAIN[\s\S]*?\x7b[\s\S]*?\x7d/gms, "")`. -/
def replaceMainAll (l : List Char) : List Char := replaceMainAllGo l.length l

/-- One mandatory whitespace character. -/
def oneWs (l : List Char) : Option (List Char) :=
  match l with
  | [] => none
  | c :: cs => if jsWs c then some cs else none

/-- Match of `#include\s".*"` at the head: the greedy dot runs to the end of
the line and backtracks to the last quote of the line. -/
def matchIncludeAt (l : List Char) : Option (List Char) := do
  let r1 ← litP (str "#include") l
  let r2 ← oneWs r1
  let r3 ← litP (str "\"") r2
  let w := r3.takeWhile (fun d => !jsBreak d)
  let z := r3.dropWhile (fun d => !jsBreak d)
  if w.contains '"' then some (afterLastChar '"' w ++ z) else none

/-- Fuel-driven global replace of the include pattern by the empty string. -/
def removeIncludesGo : Nat → List Char → List Char
  | 0, l => l
  | _ + 1, [] => []
  | fuel + 1, c :: cs =>
    match matchIncludeAt (c :: cs) with
    | some rest => removeIncludesGo fuel rest
    | none => c :: removeIncludesGo fuel cs

/-- JavaScript `content.replace(/#include\s".*"/gm, "")`. -/
def removeIncludes (l : List Char) : List Char := removeIncludesGo l.length l

/-! ## Jump-label neutralisation (`createCompiledMacro`, lines 128-135) -/

/-- After a '<': is every later '>' preceded by a line terminator?  `false`
exactly when the tail begins a completion of a `/<.*>/` match. -/
def noGtBeforeBreak : List Char → Bool
  | [] => true
  | c :: cs => if jsBreak c then true else if c = '>' then false else noGtBeforeBreak cs

/-- `true` when `/<.*>/gm` has no match in the text: no '<' followed by a '>'
on the same line. -/
def safeChars : List Char → Bool
  | [] => true
  | c :: cs => (if c = '<' then noGtBeforeBreak cs else true) && safeChars cs

/-- Replace the single greedy `<.*>` match inside one line (a list without
line terminators): from the first '<' that is followed by a later '>',
through the last '>' of the line, by the text `error`. -/
def replaceLabelLine (l : List Char) : List Char :=
  if safeChars l then l
  else l.takeWhile (fun d => d != '<') ++ str "error" ++ afterLastChar '>' l

/-- Apply the single-line replacement to every line, preserving terminators:
the JavaScript global replace of `/<.*>/gm` by `"error"`. -/
def replaceJumpAll (l : List Char) : List Char :=
  match h : l.dropWhile (fun d => !jsBreak d) with
  | [] => replaceLabelLine (l.takeWhile (fun d => !jsBreak d))
  | s1 :: t => replaceLabelLine (l.takeWhile (fun d => !jsBreak d)) ++ s1 :: replaceJumpAll t
termination_by l.length
decreasing_by
  have h1 : (s1 :: t).length ≤ l.length := by
    rw [← h]
    exact (List.dropWhile_suffix _).length_le
  simp only [List.length_cons] at h1
  omega

/-- The halt block appended after rewriting jump labels. -/
def haltBlock : List Char := str "error:\n\t0x0 dup1 stop"

/-- Jump-label neutralisation: when `/<.*>/gm` tests true on the body, every
match is replaced by `error` and the halt block is appended once. -/
def neutralizeJumpLabels (body : List Char) : List Char :=
  if safeChars body then body else replaceJumpAll body ++ haltBlock

/-! ## Specification-side notion of an angle-bracketed jump-label reference -/

/-- Characters allowed in a jump-label name. -/
def labelChar (c : Char) : Bool := c.isAlphanum || c = '_'

/-- Is there an angle-bracketed label reference `<name>` at the head? -/
def labelRefAtHead : List Char → Bool
  | [] => false
  | c :: rest =>
    let nm := rest.takeWhile labelChar
    c = '<' && (!nm.isEmpty && ((rest.drop nm.length).take 1 == ['>']))

/-- Does the text contain an angle-bracketed label reference anywhere? -/
def hasLabelRef : List Char → Bool
  | [] => false
  | c :: cs => labelRefAtHead (c :: cs) || hasLabelRef cs

/-! ## Include resolution (`createCompiledMacro`, lines 109-118) -/

/-- Directory part of a path: `currentFile.split("/").slice(0, -1).join("/")`. -/
def dirPath (f : List Char) : List Char :=
  List.intercalate ['/'] ((f.splitOn '/').dropLast)

/-- Match of `#include\s?"` at the head (first-match, non-global replace). -/
def matchIncludeDirAt (l : List Char) : Option (List Char) := do
  let r1 ← litP (str "#include") l
  wsOptThenLit (str "\"") r1

/-- `importPath.replace(/#include\s?"/, "")`: delete the first match only. -/
def removeFirstIncludeDir : List Char → List Char
  | [] => []
  | c :: cs =>
    match matchIncludeDirAt (c :: cs) with
    | some rest => rest
    | none => c :: removeFirstIncludeDir cs

/-- `.replace('"', "")`: delete the first double quote. -/
def removeFirstQuote : List Char → List Char
  | [] => []
  | c :: cs => if c = '"' then cs else c :: removeFirstQuote cs

/-- The textual payload of a raw include directive. -/
def stripIncludeDirective (imp : List Char) : List Char :=
  removeFirstQuote (removeFirstIncludeDir imp)

/-- Modelled from the spec: Node `path.join` segment normalisation (the
filesystem path collaborator is outside this repository).  Empty and `.`
segments are dropped, `..` pops the previous segment, surplus `..` above an
absolute root is discarded and above a relative root is kept. -/
def normSegs (absRoot : Bool) : List (List Char) → List (List Char) → List (List Char)
  | acc, [] => acc.reverse
  | acc, seg :: rest =>
    if seg.isEmpty || seg == ['.'] then normSegs absRoot acc rest
    else if seg == ['.', '.'] then
      match acc with
      | [] => if absRoot then normSegs absRoot [] rest else normSegs absRoot [seg] rest
      | top :: accRest =>
        if top == ['.', '.'] then normSegs absRoot (seg :: acc) rest
        else normSegs absRoot accRest rest
    else normSegs absRoot (seg :: acc) rest

/-- Modelled from the spec: Node `path.join(a, b)`. -/
def pathJoin (a b : List Char) : List Char :=
  let j := a ++ '/' :: b
  let absRoot := j.take 1 == ['/']
  let core := List.intercalate ['/'] (normSegs absRoot [] (j.splitOn '/'))
  if absRoot then '/' :: core
  else if core.isEmpty then ['.'] else core

/-- One resolved include directive:
`path.join(cwd + "/" + dirPath, importPath stripped of its directive syntax)`. -/
def resolveImportPath (cwd dir imp : List Char) : List Char :=
  pathJoin (cwd ++ '/' :: dir) (stripIncludeDirective imp)

/-- The Include Resolver: resolve every directive, then push the current file
itself (`paths.push(cwd + "/" + currentFile)`). -/
def resolvePaths (cwd currentFile : List Char) (imports : List (List Char)) :
    List (List Char) :=
  imports.map (resolveImportPath cwd (dirPath currentFile)) ++ [cwd ++ '/' :: currentFile]

/-! ## The synthesized compilable unit (`createCompiledMacro`, lines 107-146) -/

/-- The macro object handed to the debugger: declared stack arity and body text. -/
structure MacroObj where
  takes : Nat
  returns : Nat
  body : List Char
deriving DecidableEq

/-- `createCompiledMacro` (macroDebugger.js lines 107-146).  The filesystem is
passed as a reading function from absolute paths to contents; the returned
pair is the synthesized source together with the final contents of the
caller-supplied argument array, which `argsObject.reverse()` reverses in place. -/
def createCompiledMacroDef (readFile : List Char → List Char)
    (cwd : List Char) (m : MacroObj) (argsObject : List (List Char))
    (currentFile : List Char) (imports : List (List Char)) :
    List Char × List (List Char) :=
  let paths := resolvePaths cwd currentFile imports
  let files := paths.map (fun p => removeIncludes (replaceMainAll (readFile p)))
  let macroBody := neutralizeJumpLabels m.body
  let reversed := argsObject.reverse
  (str "\n" ++ List.intercalate (str "\n") files ++
     str "\n#define macro MAIN() = takes(0) returns (0) \x7b\n  " ++
     List.intercalate (str " ") reversed ++ str "\n  " ++ macroBody ++ str "\n\x7d",
   reversed)

/-! ## Keccak-256 (model of the external `keccak` npm package) -/

/-- Truncate to 64 bits. -/
def u64 (n : Nat) : Nat := n % (2 ^ 64)

/-- Rotate a 64-bit word left by `r` (with `0 ≤ r < 64`). -/
def rotl64 (n r : Nat) : Nat :=
  u64 (Nat.shiftLeft (u64 n) r) ||| Nat.shiftRight (u64 n) (64 - r)

/-- The 24 round constants of Keccak-f[1600]. -/
def keccakRC : List Nat :=
  [0x0000000000000001, 0x0000000000008082, 0x800000000000808a, 0x8000000080008000,
   0x000000000000808b, 0x0000000080000001, 0x8000000080008081, 0x8000000000008009,
   0x000000000000008a, 0x0000000000000088, 0x0000000080008009, 0x000000008000000a,
   0x000000008000808b, 0x800000000000008b, 0x8000000000008089, 0x8000000000008003,
   0x8000000000008002, 0x8000000000000080, 0x000000000000800a, 0x800000008000000a,
   0x8000000080008081, 0x8000000000008080, 0x0000000080000001, 0x8000000080008008]

/-- Rotation offsets of the rho step, indexed by `x + 5 * y`, one row per
value of `y`. -/
def rhoOff : List Nat :=
  [0, 1, 62, 28, 27] ++ [36, 44, 6, 55, 20] ++ [3, 10, 43, 25, 39] ++
    [41, 45, 15, 21, 8] ++ [18, 2, 61, 56, 14]

/-- Lane `(x, y)` of a 25-lane state (indices taken modulo 5). -/
def lane (st : List Nat) (x y : Nat) : Nat := st.getD (x % 5 + 5 * (y % 5)) 0

/-- Theta step. -/
def thetaStep (st : List Nat) : List Nat :=
  let c := fun x => lane st x 0 ^^^ lane st x 1 ^^^ lane st x 2 ^^^ lane st x 3 ^^^ lane st x 4
  let d := fun x => c ((x + 4) % 5) ^^^ rotl64 (c ((x + 1) % 5)) 1
  (List.range 25).map (fun i => lane st (i % 5) (i / 5) ^^^ d (i % 5))

/-- Combined rho and pi steps. -/
def rhoPiStep (st : List Nat) : List Nat :=
  (List.range 25).map (fun j =>
    let xp := j % 5
    let yp := j / 5
    let x := (3 * yp + xp) % 5
    let y := xp
    rotl64 (lane st x y) (rhoOff.getD (x + 5 * y) 0))

/-- Chi step. -/
def chiStep (st : List Nat) : List Nat :=
  (List.range 25).map (fun j =>
    let x := j % 5
    let y := j / 5
    lane st x y ^^^ ((lane st (x + 1) y ^^^ (2 ^ 64 - 1)) &&& lane st (x + 2) y))

/-- Iota step. -/
def iotaStep (rc : Nat) (st : List Nat) : List Nat :=
  match st with
  | [] => []
  | a :: rest => (u64 (a ^^^ rc)) :: rest

/-- One round of Keccak-f[1600]. -/
def keccakRound (st : List Nat) (rc : Nat) : List Nat :=
  iotaStep rc (chiStep (rhoPiStep (thetaStep st)))

/-- The full Keccak-f[1600] permutation. -/
def keccakF (st : List Nat) : List Nat := keccakRC.foldl keccakRound st

/-- Keccak pad10*1 for rate 136 bytes with the original 0x01 domain byte, as
used by Ethereum and by the `keccak` npm package. -/
def keccakPad (m : List Nat) : List Nat :=
  let q := 136 - m.length % 136
  if q = 1 then m ++ [0x81]
  else m ++ 0x01 :: List.replicate (q - 2) 0 ++ [0x80]

/-- Eight little-endian bytes as one 64-bit lane. -/
def bytesToLane (bs : List Nat) : Nat :=
  bs.foldr (fun b acc => acc * 256 + b) 0

/-- A 64-bit lane as eight little-endian bytes. -/
def laneToBytes (n : Nat) : List Nat :=
  (List.range 8).map (fun i => Nat.shiftRight n (8 * i) % 256)

/-- Absorb one 136-byte block and permute. -/
def absorbBlock (st : List Nat) (block : List Nat) : List Nat :=
  let lanes := (List.toChunks 8 block).map bytesToLane
  keccakF ((List.range 25).map (fun i => st.getD i 0 ^^^ lanes.getD i 0))

/-- Keccak-256 of a byte string. -/
def keccak256Bytes (m : List Nat) : List Nat :=
  let final := (List.toChunks 136 (keccakPad m)).foldl absorbBlock (List.replicate 25 0)
  List.flatten ((final.take 4).map laneToBytes)

/-- Lowercase hex digit. -/
def hexChar (n : Nat) : Char := (str "0123456789abcdef").getD n 'x'

/-- Lowercase hex rendering of a byte string. -/
def bytesToHex (bs : List Nat) : List Char :=
  bs.foldr (fun b acc => hexChar (b / 16 % 16) :: hexChar (b % 16) :: acc) []

/-- `createKeccakHash("keccak256").update(Buffer.from(s)).digest("hex")` for a
string `s` of ASCII characters (whose UTF-8 bytes are their code points). -/
def keccak256Hex (s2 : List Char) : List Char :=
  bytesToHex (keccak256Bytes (s2.map Char.toNat))

/-! ## The derived contract address (`startMacroDebugger`, lines 53-62) -/

/-- JavaScript `macro.toString()`: the macro object is a plain data object
(declared `@param {Object} macro` and consumed via `macro.body`), so the
default `Object.prototype.toString` yields the constant text
`[object Object]` regardless of the macro contents. -/
def macroToString (_m : MacroObj) : List Char := str "[object Object]"

/-- `hevmContractAddress` (macroDebugger.js lines 57-61):
`createKeccakHash("keccak256").update(Buffer.from(macro.toString()))
.digest("hex").toString("hex").slice(0, 42)`. -/
def hevmContractAddress (m : MacroObj) : List Char :=
  (keccak256Hex (macroToString m)).take 42

/-! ## Specification-side entry-point header counting -/

/-- Specification-side entry-point header: the definition keyword, the
`macro` keyword and the name literal `MAIN`, separated by whitespace
(the specification asks that "matching must tolerate optional whitespace"). -/
def specMainHeaderAt (l : List Char) : Bool :=
  (do
    let r1 ← litP (str "#define") l
    let r2 ← wsPlusThenLit (str "macro") r1
    let _ ← wsPlusThenLit (str "MAIN") r2
    pure ()).isSome

/-- Number of entry-point headers occurring in a text. -/
def countSpecMainHeaders : List Char → Nat
  | [] => 0
  | c :: cs => (if specMainHeaderAt (c :: cs) then 1 else 0) + countSpecMainHeaders cs

/-! ## Supporting facts and claim theorems -/

set_option maxRecDepth 100000

/-- Keccak-256 test vector for the empty string, checking the hash model. -/
theorem keccak256Hex_empty_vector :
    keccak256Hex (str "") =
      str "c5d2460186f7233c927e7db2dcc703c0e500b653ca82273b7bfad8045d85a470" := by
  decide

/-- Absolute inputs give absolute joins. -/
theorem pathJoin_take_one (x b : List Char) : (pathJoin ('/' :: x) b).take 1 = ['/'] := rfl

/-- C1: evaluation of the code at the failing input.  The hash input is
`macro.toString()`, which is the constant text `[object Object]` for every
macro object, so two macros whose debugged text differs still receive the
byte-identical address; and the address is `slice(0, 42)` of the unprefixed
hex digest — 42 hex characters, i.e. the first 21 bytes of the hash, never
equal to the first 20 bytes (40 hex characters) named by the claim. -/
theorem c1_address_ignores_macro_text :
    (⟨0, 0, str "stop"⟩ : MacroObj) ≠ ⟨0, 0, str "add"⟩ ∧
    (∀ m : MacroObj,
      hevmContractAddress m = str "7bc087f4ef9d0dc15fef823bff9c78cc5cca8be0a8") ∧
    hevmContractAddress ⟨0, 0, str "stop"⟩ = hevmContractAddress ⟨0, 0, str "add"⟩ ∧
    (hevmContractAddress ⟨0, 0, str "stop"⟩).length = 42 ∧
    (∀ m : MacroObj,
      hevmContractAddress m ≠ (keccak256Hex (macroToString m)).take 40) := by
  have haddr : ∀ m : MacroObj,
      hevmContractAddress m = str "7bc087f4ef9d0dc15fef823bff9c78cc5cca8be0a8" :=
    fun _ => rfl
  refine ⟨by decide, haddr, (haddr _).trans (haddr _).symm, by rw [haddr]; decide, ?_⟩
  intro m heq
  have h3 : str "7bc087f4ef9d0dc15fef823bff9c78cc5cca8be0a8" =
      (keccak256Hex (macroToString m)).take 40 := (haddr m).symm.trans heq
  have h4 := congrArg List.length h3
  have h5 := List.length_take_le 40 (keccak256Hex (macroToString m))
  rw [← h4] at h5
  simp [str] at h5

/-- C2: the synthesized entry point always places the reversed argument list,
joined by single spaces, immediately before the (label-neutralized) macro
body; and for body `0x01 0x02 add` with arguments `0x05, 0x06` the output
contains `0x06 0x05` followed by the body, in that textual order. -/
theorem c2_entry_point_args_reversed :
    (∀ readFile cwd m argsObject currentFile imports, ∃ pre,
      (createCompiledMacroDef readFile cwd m argsObject currentFile imports).1 =
        pre ++ List.intercalate (str " ") argsObject.reverse ++
          str "\n  " ++ neutralizeJumpLabels m.body ++ str "\n\x7d") ∧
    strContains (str "0x06 0x05\n  0x01 0x02 add")
      (createCompiledMacroDef (fun _ => []) (str "/w") ⟨0, 0, str "0x01 0x02 add"⟩
        [str "0x05", str "0x06"] (str "t.huff") []).1 = true := by
  constructor
  · intro readFile cwd m argsObject currentFile imports
    exact ⟨str "\n" ++
      List.intercalate (str "\n")
        ((resolvePaths cwd currentFile imports).map
          (fun p => removeIncludes (replaceMainAll (readFile p)))) ++
      str "\n#define macro MAIN() = takes(0) returns (0) \x7b\n  ", rfl⟩
  · decide

/-- The failing input for C3: a file whose single entry-point definition
separates `macro` from `MAIN` by two spaces. -/
def fileWithDoubleSpaceMain : List Char :=
  str "#define macro  MAIN() = takes (0) returns (0) \x7b\n  stop\n\x7d"

/-- C3: evaluation of the code at the failing input.  The stripping pattern
`#define\s?macro\s?MAIN...` allows at most one whitespace character between
its keywords, so the (legitimate, two-space) entry-point block above survives
the strip and the flattened output contains two entry-point definitions, not
exactly one. -/
theorem c3_flattened_output_two_mains :
    countSpecMainHeaders fileWithDoubleSpaceMain = 1 ∧
    countSpecMainHeaders
      (createCompiledMacroDef (fun _ => fileWithDoubleSpaceMain) (str "/w")
        ⟨0, 0, str "stop"⟩ [] (str "t.huff") []).1 = 2 := by
  decide

/-- C9: the Include Resolver returns one path per directive plus the current
file, in directive order, with the current file last; when the working
directory is absolute every returned path is absolute. -/
theorem c9_include_resolver_shape (cwd currentFile : List Char)
    (imports : List (List Char)) (habs : cwd.take 1 = ['/']) :
    (resolvePaths cwd currentFile imports).length = imports.length + 1 ∧
    (resolvePaths cwd currentFile imports).getLast? = some (cwd ++ '/' :: currentFile) ∧
    (∀ i, i < imports.length →
      (resolvePaths cwd currentFile imports).getD i [] =
        resolveImportPath cwd (dirPath currentFile) (imports.getD i [])) ∧
    (∀ p ∈ resolvePaths cwd currentFile imports, p.take 1 = ['/']) := by
  obtain ⟨c, cwd2, rfl⟩ : ∃ c cwd2, cwd = c :: cwd2 := by
    cases cwd with
    | nil => simp [List.take] at habs
    | cons c cwd2 => exact ⟨c, cwd2, rfl⟩
  have hc : c = '/' := by simpa [List.take] using habs
  subst hc
  refine ⟨by simp [resolvePaths], List.getLast?_concat _, ?_, ?_⟩
  · intro i hi
    unfold resolvePaths
    rw [List.getD_append _ _ _ _ (by simpa using hi)]
    induction imports generalizing i with
    | nil => simp at hi
    | cons imp rest ih =>
      cases i with
      | zero => simp [List.getD]
      | succ j =>
        simp only [List.map_cons]
        have hj : j < rest.length := by simpa using hi
        simpa [List.getD] using ih j hj
  · intro p hp
    unfold resolvePaths at hp
    rcases List.mem_append.mp hp with hp1 | hp2
    · obtain ⟨imp, _, rfl⟩ := List.mem_map.mp hp1
      exact pathJoin_take_one _ _
    · have hp3 : p = '/' :: (cwd2 ++ '/' :: currentFile) := by simpa using hp2
      rw [hp3]
      rfl

/-- Witness for C9 at a concrete session. -/
theorem c9_include_resolver_shape_witness :
    (resolvePaths (str "/w") (str "c/t.huff") [str "#include \"./a.huff\""]).length =
      ([str "#include \"./a.huff\""]).length + 1 ∧
    (resolvePaths (str "/w") (str "c/t.huff")
        [str "#include \"./a.huff\""]).getLast? =
      some (str "/w" ++ '/' :: str "c/t.huff") ∧
    (∀ i, i < ([str "#include \"./a.huff\""]).length →
      (resolvePaths (str "/w") (str "c/t.huff") [str "#include \"./a.huff\""]).getD i [] =
        resolveImportPath (str "/w") (dirPath (str "c/t.huff"))
          (([str "#include \"./a.huff\""]).getD i [])) ∧
    (∀ p ∈ resolvePaths (str "/w") (str "c/t.huff") [str "#include \"./a.huff\""],
      p.take 1 = ['/']) :=
  c9_include_resolver_shape (str "/w") (str "c/t.huff")
    [str "#include \"./a.huff\""] (by decide)

/-- C10: `argsObject.reverse()` reverses the caller-supplied array in place,
so the array observed by the caller after `createCompiledMacro` is the
reverse of the one passed in; for the two-element list `0x05, 0x06` the
caller observes a different list. -/
theorem c10_argument_array_mutated :
    (∀ readFile cwd m argsObject currentFile imports,
      (createCompiledMacroDef readFile cwd m argsObject currentFile imports).2 =
        argsObject.reverse) ∧
    (createCompiledMacroDef (fun _ => []) (str "/w") ⟨0, 0, str "stop"⟩
        [str "0x05", str "0x06"] (str "t.huff") []).2 ≠ [str "0x05", str "0x06"] := by
  exact ⟨fun _ _ _ _ _ _ => rfl, by decide⟩

/-! ## Storage overrides (`overrideStorage`, lines 199-229) -/

/-- One storage override entry. -/
structure StateValue where
  key : List Char
  value : List Char

/-- The override sequence: one `value key sstore` line per entry, in order. -/
def overridesText (stateValues : List StateValue) : List Char :=
  stateValues.foldl (fun acc st => acc ++ st.value ++ str " " ++ st.key ++ str " sstore\n") []

/-- One decimal digit (`[\d]`). -/
def oneDigit (l : List Char) : Option (List Char) :=
  match l with
  | [] => none
  | c :: cs => if c.isDigit then some cs else none

/-- Lazy `[\s\S]*?` up to, but not through, the first occurrence of `c`
(the lookahead `(?=c)` leaves `c` unconsumed). -/
def upToCharExcl (c : Char) (l : List Char) : Option (List Char) :=
  if l.contains c then some (l.dropWhile (fun d => d != c)) else none

/-- First stage of the constructor pattern:
`#define\s+macro\s+CONSTRUCTOR\s?\(([^\)]*)\)`. -/
def matchConsHead (l : List Char) : Option (List Char) := do
  let r1 ← litP (str "#define") l
  let r2 ← wsPlusThenLit (str "macro") r1
  let r3 ← wsPlusThenLit (str "CONSTRUCTOR") r2
  let r4 ← wsOptThenLit (str "(") r3
  upThroughChar ')' r4

/-- Second stage: `\s?=\s?takes\s?\(([\d])\)`. -/
def matchConsTakes (l : List Char) : Option (List Char) := do
  let r1 ← wsOptThenLit (str "=") l
  let r2 ← wsOptThenLit (str "takes") r1
  let r3 ← wsOptThenLit (str "(") r2
  let r4 ← oneDigit r3
  litP (str ")") r4

/-- Third stage: `\s?returns\s?\(([\d])\)`. -/
def matchConsReturns (l : List Char) : Option (List Char) := do
  let r1 ← wsOptThenLit (str "returns") l
  let r2 ← wsOptThenLit (str "(") r1
  let r3 ← oneDigit r2
  litP (str ")") r3

/-- Fourth stage: `\s?\x7b([\s\S]*?(?=\x7d))` — the lookahead leaves the
closing brace unconsumed. -/
def matchConsBody (l : List Char) : Option (List Char) := do
  let r1 ← wsOptThenLit (str "\x7b") l
  upToCharExcl '\x7d' r1

/-- Match of the constructor pattern
`#define\s+macro\s+CONSTRUCTOR\s?\(([^\)]*)\)\s?=\s?takes\s?\(([\d])\)\s?returns\s?\(([\d])\)\s?\x7b([\s\S]*?(?=\x7d))`
at the head, returning the unconsumed rest (starting at the closing brace). -/
def matchConstructorAt (l : List Char) : Option (List Char) := do
  let r1 ← matchConsHead l
  let r2 ← matchConsTakes r1
  let r3 ← matchConsReturns r2
  matchConsBody r3

/-- `constructorRegex.exec(macro)`: the first match, returned as the text
before the match, the matched text, and the rest after it. -/
def firstConstructorSplit : List Char → Option (List Char × List Char × List Char)
  | [] => none
  | c :: cs =>
    match matchConstructorAt (c :: cs) with
    | some rest => some ([], (c :: cs).take ((c :: cs).length - rest.length), rest)
    | none =>
      match firstConstructorSplit cs with
      | some (p, m0, r) => some (c :: p, m0, r)
      | none => none

/-- Fuel-driven global replace of every constructor match by `repl`
(the replacement string is fixed before scanning, as in the source, where it
is built from the first match). -/
def replaceConstructorAllGo (repl : List Char) : Nat → List Char → List Char
  | 0, l => l
  | _ + 1, [] => []
  | fuel + 1, c :: cs =>
    match matchConstructorAt (c :: cs) with
    | some rest => repl ++ replaceConstructorAllGo repl fuel rest
    | none => c :: replaceConstructorAllGo repl fuel cs

/-- `macro.replace(constructorRegex, replacement)` with the global flag. -/
def replaceConstructorAll (repl l : List Char) : List Char :=
  replaceConstructorAllGo repl l.length l

/-- `overrideStorage` (macroDebugger.js lines 199-229): when the constructor
pattern matches, every match is replaced by the first match followed by the
override sequence; otherwise a fresh zero-arity constructor holding the
sequence is appended. -/
def overrideStorage (macroSrc : List Char) (stateValues : List StateValue) : List Char :=
  match firstConstructorSplit macroSrc with
  | some (_, m0, _) =>
    replaceConstructorAll (m0 ++ str "\n\t" ++ overridesText stateValues) macroSrc
  | none =>
    macroSrc ++ str "\n#define macro CONSTRUCTOR() = takes(0) returns(0) \x7b\n\t" ++
      overridesText stateValues ++ str "\x7d"

/-- The failing input for C4: a flattened source holding two constructor
definitions (as arises when two included files each define one), with
distinguishable bodies. -/
def twoConstructorSource : List Char :=
  str "#define macro CONSTRUCTOR() = takes(0) returns(0) \x7b\n  0x01\n\x7d\n#define macro CONSTRUCTOR() = takes(0) returns(0) \x7b\n  0x02\n\x7d"

/-- A single storage override. -/
def oneOverride : List StateValue := [⟨str "0x00", str "0xaa"⟩]

/-- C4: evaluation of the code at the failing input.  With one override
(whose sequence holds exactly one store instruction) and a source holding
two constructor blocks and no store instruction, the global replace rewrites
every constructor match with a copy of the first match plus the overrides:
the output holds two store instructions instead of one, the first
constructor body `0x01` is duplicated, and the second constructor body
`0x02` is deleted. -/
theorem c4_override_storage_duplicates :
    countStr (str "sstore") (overridesText oneOverride) = 1 ∧
    countStr (str "sstore") twoConstructorSource = 0 ∧
    countStr (str "sstore") (overrideStorage twoConstructorSource oneOverride) = 2 ∧
    countStr (str "0x01") twoConstructorSource = 1 ∧
    countStr (str "0x01") (overrideStorage twoConstructorSource oneOverride) = 2 ∧
    countStr (str "0x02") twoConstructorSource = 1 ∧
    countStr (str "0x02") (overrideStorage twoConstructorSource oneOverride) = 0 := by
  decide

/-! ## Jump-label neutralisation: correctness -/

/-- Label-name characters are not line terminators and not '>'. -/
theorem labelChar_props {c : Char} (h : labelChar c = true) :
    jsBreak c = false ∧ c ≠ '>' := by
  constructor
  · by_contra hcon
    rw [Bool.not_eq_false] at hcon
    have h4 : c = '\n' ∨ c = '\r' ∨ c = Char.ofNat 0x2028 ∨ c = Char.ofNat 0x2029 := by
      simpa [jsBreak, or_assoc] using hcon
    rcases h4 with h1 | h1 | h1 | h1 <;> subst h1 <;> simp [labelChar] at h
  · intro hEq
    subst hEq
    simp [labelChar] at h

/-- A run of label characters followed by '>' defeats `noGtBeforeBreak`. -/
theorem noGtBeforeBreak_label_run (nm z : List Char)
    (h : ∀ c ∈ nm, labelChar c = true) :
    noGtBeforeBreak (nm ++ '>' :: z) = false := by
  induction nm with
  | nil => simp [noGtBeforeBreak, jsBreak]
  | cons d nm2 ih =>
    have hd := labelChar_props (h d (by simp))
    have h2 : ∀ c ∈ nm2, labelChar c = true := fun c hc => h c (by simp [hc])
    simp only [List.cons_append, noGtBeforeBreak, hd.1, Bool.false_eq_true, if_false]
    rw [if_neg hd.2]
    exact ih h2

/-- `dropWhile` yields a head refuting its predicate. -/
theorem dropWhile_head_false {p : Char → Bool} {l : List Char} {x : Char} {xs : List Char}
    (h : l.dropWhile p = x :: xs) : p x = false := by
  induction l with
  | nil => simp [List.dropWhile] at h
  | cons c cs ih =>
    rw [List.dropWhile_cons] at h
    by_cases hp : p c = true
    · rw [if_pos hp] at h
      exact ih h
    · rw [if_neg hp] at h
      injection h with h1 _
      subst h1
      simpa using hp

/-- The maximal satisfying run and the remainder reassemble the list. -/
theorem takeWhile_drop_split (p : Char → Bool) (cs : List Char) :
    cs.takeWhile p ++ cs.drop (cs.takeWhile p).length = cs := by
  induction cs with
  | nil => rfl
  | cons c cs2 ih =>
    rw [List.takeWhile_cons]
    by_cases hp : p c = true
    · rw [if_pos hp]
      simp only [List.length_cons, List.cons_append, List.drop_succ_cons]
      rw [ih]
    · rw [if_neg hp]
      simp

/-- Where `/<.*>/gm` has no match there is no label reference either. -/
theorem safeChars_imp_no_labelRef (l : List Char) (h : safeChars l = true) :
    hasLabelRef l = false := by
  induction l with
  | nil => rfl
  | cons c cs ih =>
    simp only [safeChars, Bool.and_eq_true] at h
    have htail := ih h.2
    have hhead : labelRefAtHead (c :: cs) = false := by
      by_contra hcon
      rw [Bool.not_eq_false] at hcon
      simp only [labelRefAtHead, Bool.and_eq_true, decide_eq_true_eq] at hcon
      obtain ⟨hc, hnm, hgt⟩ := hcon
      subst hc
      have hngb : noGtBeforeBreak cs = true := by
        have h1 := h.1
        rw [if_pos rfl] at h1
        exact h1
      obtain ⟨d, dw2, hdw⟩ :
          ∃ d dw2, cs.drop (cs.takeWhile labelChar).length = d :: dw2 := by
        cases hdrop : cs.drop (cs.takeWhile labelChar).length with
        | nil => rw [hdrop] at hgt; simp at hgt
        | cons d dw2 => exact ⟨d, dw2, rfl⟩
      have hd : d = '>' := by
        rw [hdw] at hgt
        simpa using hgt
      subst hd
      have hcs : cs = cs.takeWhile labelChar ++ '>' :: dw2 := by
        conv_lhs => rw [← takeWhile_drop_split labelChar cs]
        rw [hdw]
      have hmem : ∀ a ∈ cs.takeWhile labelChar, labelChar a = true :=
        fun a ha => List.mem_takeWhile_imp ha
      have hfalse := noGtBeforeBreak_label_run (cs.takeWhile labelChar) dw2 hmem
      rw [hcs, hfalse] at hngb
      simp at hngb
    simp [hasLabelRef, hhead, htail]

/-- No '>' before the first line terminator means `noGtBeforeBreak` holds. -/
theorem noGtBeforeBreak_of_firstLine (l : List Char)
    (h : '>' ∉ l.takeWhile (fun d => !jsBreak d)) : noGtBeforeBreak l = true := by
  induction l with
  | nil => rfl
  | cons c cs ih =>
    rw [noGtBeforeBreak]
    by_cases hb : jsBreak c = true
    · rw [if_pos hb]
    · rw [if_neg hb]
      rw [List.takeWhile_cons, if_pos (by simp [hb])] at h
      have hc : c ≠ '>' := fun hEq => h (hEq ▸ List.mem_cons_self _ _)
      rw [if_neg hc]
      exact ih (fun hm => h (List.mem_cons_of_mem _ hm))

/-- `noGtBeforeBreak` extends across an append whose right part has no '>'
on its first line. -/
theorem noGtBeforeBreak_append (x y : List Char)
    (hx : noGtBeforeBreak x = true)
    (hy : '>' ∉ y.takeWhile (fun d => !jsBreak d)) :
    noGtBeforeBreak (x ++ y) = true := by
  induction x with
  | nil => exact noGtBeforeBreak_of_firstLine y hy
  | cons c cs ih =>
    rw [List.cons_append, noGtBeforeBreak]
    rw [noGtBeforeBreak] at hx
    by_cases hb : jsBreak c = true
    · rw [if_pos hb]
    · rw [if_neg hb] at hx ⊢
      by_cases hc : c = '>'
      · rw [if_pos hc] at hx
        simp at hx
      · rw [if_neg hc] at hx ⊢
        exact ih hx

/-- A text with no '>' at all passes `noGtBeforeBreak`. -/
theorem noGtBeforeBreak_gt_free (l : List Char) (h : '>' ∉ l) :
    noGtBeforeBreak l = true :=
  noGtBeforeBreak_of_firstLine l (fun hm => h ((List.takeWhile_prefix _).sublist.subset hm))

/-- A text with no '>' at all is match free. -/
theorem safeChars_gt_free (l : List Char) (h : '>' ∉ l) : safeChars l = true := by
  induction l with
  | nil => rfl
  | cons c cs ih =>
    have h2 : '>' ∉ cs := fun hm => h (List.mem_cons_of_mem _ hm)
    rw [safeChars, Bool.and_eq_true]
    refine ⟨?_, ih h2⟩
    by_cases hc : c = '<'
    · rw [if_pos hc]
      exact noGtBeforeBreak_gt_free cs h2
    · rw [if_neg hc]

/-- Prepending '<'-free text preserves match freedom. -/
theorem safeChars_lt_free_prepend (u v : List Char) (hu : '<' ∉ u)
    (hv : safeChars v = true) : safeChars (u ++ v) = true := by
  induction u with
  | nil => simpa using hv
  | cons c u2 ih =>
    have h2 : '<' ∉ u2 := fun hm => hu (List.mem_cons_of_mem _ hm)
    have hc : c ≠ '<' := fun hEq => hu (hEq ▸ List.mem_cons_self _ _)
    rw [List.cons_append, safeChars, Bool.and_eq_true]
    exact ⟨by rw [if_neg hc], ih h2⟩

/-- Match freedom is preserved by appends whose right part has no '>' on its
first line. -/
theorem safeChars_append (x y : List Char)
    (hx : safeChars x = true) (hy : safeChars y = true)
    (hy1 : '>' ∉ y.takeWhile (fun d => !jsBreak d)) :
    safeChars (x ++ y) = true := by
  induction x with
  | nil => simpa using hy
  | cons c x2 ih =>
    rw [safeChars, Bool.and_eq_true] at hx
    rw [List.cons_append, safeChars, Bool.and_eq_true]
    refine ⟨?_, ih hx.2⟩
    by_cases hc : c = '<'
    · rw [if_pos hc]
      have hngb : noGtBeforeBreak x2 = true := by
        have h1 := hx.1
        rw [if_pos hc] at h1
        exact h1
      exact noGtBeforeBreak_append x2 y hngb hy1
    · rw [if_neg hc]

/-- The rewritten line is always match free: everything up to the first '<'
is '<'-free, the splice text `error` has no brackets, and everything after
the last '>' is '>'-free. -/
theorem safeChars_replaceLabelLine (line : List Char) :
    safeChars (replaceLabelLine line) = true := by
  rw [replaceLabelLine]
  by_cases hs : safeChars line = true
  · rw [if_pos hs]
    exact hs
  · rw [if_neg hs, List.append_assoc]
    have ha : '<' ∉ line.takeWhile (fun d => d != '<') := by
      intro hm
      have := List.mem_takeWhile_imp hm
      simp at this
    have hb : '>' ∉ afterLastChar '>' line := by
      intro hm
      rw [afterLastChar, List.mem_reverse] at hm
      have := List.mem_takeWhile_imp hm
      simp at this
    refine safeChars_lt_free_prepend _ _ ha ?_
    refine safeChars_lt_free_prepend _ _ (by decide) ?_
    exact safeChars_gt_free _ hb

/-- The global jump-label replacement always produces match-free text. -/
theorem safeChars_replaceJumpAll (l : List Char) :
    safeChars (replaceJumpAll l) = true := by
  induction l using replaceJumpAll.induct with
  | case1 x hdrop =>
    rw [replaceJumpAll, hdrop]
    exact safeChars_replaceLabelLine _
  | case2 x s1 t hdrop ih =>
    rw [replaceJumpAll, hdrop]
    have hs1 : jsBreak s1 = true := by
      have := dropWhile_head_false hdrop
      simpa using this
    have hs1lt : s1 ≠ '<' := by
      intro hEq
      rw [hEq] at hs1
      simp [jsBreak] at hs1
    refine safeChars_append _ _ (safeChars_replaceLabelLine _) ?_ ?_
    · rw [safeChars, Bool.and_eq_true]
      exact ⟨by rw [if_neg hs1lt], ih⟩
    · rw [List.takeWhile_cons, if_neg (by simp [hs1])]
      simp

/-- The full isolated text, halt block included, is match free. -/
theorem safeChars_isolated (l : List Char) :
    safeChars (replaceJumpAll l ++ haltBlock) = true := by
  refine safeChars_append _ _ (safeChars_replaceJumpAll l) (by decide) (by decide)

/-- C5 (amended): every body on which the jump-label pattern `/<.*>/gm`
tests true - whether or not it holds an actual angle-bracketed label
reference - is rewritten so that no label reference survives, and the halt
block is appended exactly once; every body holding a label reference is
such a body; a body on which the pattern does not test true is returned
unchanged. -/
theorem c5_jump_label_neutralization (body : List Char) :
    (safeChars body = false →
      hasLabelRef (neutralizeJumpLabels body) = false ∧
      neutralizeJumpLabels body = replaceJumpAll body ++ haltBlock) ∧
    (hasLabelRef body = true → safeChars body = false) ∧
    (safeChars body = true → neutralizeJumpLabels body = body) := by
  refine ⟨?_, ?_, ?_⟩
  · intro hsafe
    have hout : neutralizeJumpLabels body = replaceJumpAll body ++ haltBlock := by
      rw [neutralizeJumpLabels, if_neg (by simp [hsafe])]
    refine ⟨?_, hout⟩
    rw [hout]
    exact safeChars_imp_no_labelRef _ (safeChars_isolated body)
  · intro href
    by_contra hcon
    rw [Bool.not_eq_false] at hcon
    rw [safeChars_imp_no_labelRef body hcon] at href
    simp at href
  · intro hsafe
    rw [neutralizeJumpLabels, if_pos hsafe]

/-- Counterexample for C5 as stated: the body `a < b > c` holds no
angle-bracketed jump-label reference, yet the isolation step rewrites it
(the greedy dot of `/<.*>/` matches the spaced comparison text) and appends
the halt block, so it is not left unchanged. -/
theorem c5_counterexample_non_label_body :
    hasLabelRef (str "a < b > c") = false ∧
    neutralizeJumpLabels (str "a < b > c") ≠ str "a < b > c" := by
  have h1 : replaceJumpAll (str "a < b > c") = str "a error c" := by
    rw [replaceJumpAll]
    decide
  have h2 : neutralizeJumpLabels (str "a < b > c") =
      str "a error c" ++ haltBlock := by
    rw [neutralizeJumpLabels, if_neg (by decide), h1]
  rw [h2]
  exact ⟨by decide, by decide⟩

/-- Witness for C5 at concrete bodies: a pattern-true body without a label
reference, a body with a label reference, and a pattern-free body. -/
theorem c5_jump_label_neutralization_witness :
    (hasLabelRef (neutralizeJumpLabels (str "lt < swap1 > gt")) = false ∧
      neutralizeJumpLabels (str "lt < swap1 > gt") =
        replaceJumpAll (str "lt < swap1 > gt") ++ haltBlock) ∧
    safeChars (str "dup1 <loopStart> jumpi") = false ∧
    neutralizeJumpLabels (str "add mul") = str "add mul" :=
  ⟨(c5_jump_label_neutralization (str "lt < swap1 > gt")).1 (by decide),
   (c5_jump_label_neutralization (str "dup1 <loopStart> jumpi")).2.1 (by decide),
   (c5_jump_label_neutralization (str "add mul")).2.2 (by decide)⟩

/-! ## Pipeline orchestration as event traces -/

/-- Observable events of one macro-debug session (macro debugger version). -/
inductive SessionEvent where
  | showInstallMessage
  | compileInvoked
  | deployInvoked
  | writeCommand
  | launchTerminal
  | reportError (message : List Char)
deriving DecidableEq

/-- The fixed human-readable message of the catch-all handler
(macroDebugger.js line 89). -/
def macroCompilationErrorMessage : List Char :=
  str "Macro Compilation Error, this is pre-release software, please report this issue to the huff team in the discord"

/-- `startMacroDebugger` (macroDebugger.js lines 33-93) as an event trace.
`installed` is the installation-check answer (`checkInstallations` shows its
own actionable message and returns false when the tools are missing, per the
checkHevmInstallation source); `readResult` stands for the file reads inside
`createCompiledMacro` (`fs.readFileSync` throws on an unreadable path);
`compileResult` and `deployResult` stand for the external compiler and
create-mode simulator calls.  Any throw lands in the single catch block,
which reports the fixed human-readable message and returns null; the debug
command is written and launched only on full success. -/
def startMacroDebuggerTrace (installed : Bool)
    (readResult compileResult deployResult : Except (List Char) (List Char)) :
    List SessionEvent :=
  if !installed then [SessionEvent.showInstallMessage]
  else
    match readResult with
    | .error _ => [SessionEvent.reportError macroCompilationErrorMessage]
    | .ok _ =>
      match compileResult with
      | .error _ =>
        [SessionEvent.compileInvoked, SessionEvent.reportError macroCompilationErrorMessage]
      | .ok _ =>
        match deployResult with
        | .error _ =>
          [SessionEvent.compileInvoked, SessionEvent.deployInvoked,
           SessionEvent.reportError macroCompilationErrorMessage]
        | .ok _ =>
          [SessionEvent.compileInvoked, SessionEvent.deployInvoked,
           SessionEvent.writeCommand, SessionEvent.launchTerminal]

/-- Deployment and debugging events of the viewer pipeline. -/
inductive ViewerEvent where
  | compileInvoked
  | deployForRuntime
  | deployForState
  | writeCommand
  | launchTerminal
deriving DecidableEq

/-- Success-path event order of the viewer `startMacroDebugger` together
with its `runMacroDebugger` (viewer macroDebugger.js lines 23-126): compile,
then the always-performed create deployment that returns the runtime
bytecode (line 44), then - only when `stateChecked` is set (lines 107-109) -
a second create deployment persisting constructor storage, then the command
write and the terminal launch. -/
def viewerMacroTrace (stateChecked storageChecked : Bool) : List ViewerEvent :=
  [ViewerEvent.compileInvoked, ViewerEvent.deployForRuntime] ++
    (if stateChecked then [ViewerEvent.deployForState] else []) ++
    [ViewerEvent.writeCommand, ViewerEvent.launchTerminal]

/-- C6 counterexample: in a preserve-state session the state-persisting pass
runs after the runtime-extraction pass, not before it; and in a
storage-override-only session no second deployment happens at all. -/
theorem c6_counterexample_order :
    ¬ (viewerMacroTrace true false).indexOf ViewerEvent.deployForState <
        (viewerMacroTrace true false).indexOf ViewerEvent.deployForRuntime ∧
    ViewerEvent.deployForState ∉ viewerMacroTrace false true := by
  decide

/-- C6 (amended): in the viewer pipeline - the only implementation with two
simulator passes - the always-performed runtime-extraction pass is the
second step of every session, directly after compilation; a preserve-state
session additionally runs the state-persisting deployment after it and
before the command is written and launched; a session without the
preserve-state flag (storage overrides alone included) runs no second
deployment.  In the newer macro-debugger pipeline every successful session,
whatever its flags, performs exactly one create-mode deployment, after
compilation and before the command write and launch. -/
theorem c6_deployment_order (stateChecked storageChecked : Bool)
    (readBytes compileBytes deployBytes : List Char) :
    (viewerMacroTrace stateChecked storageChecked).indexOf ViewerEvent.deployForRuntime = 1 ∧
    (viewerMacroTrace stateChecked storageChecked).getLast? = some ViewerEvent.launchTerminal ∧
    (stateChecked = true →
      viewerMacroTrace stateChecked storageChecked =
        [ViewerEvent.compileInvoked, ViewerEvent.deployForRuntime, ViewerEvent.deployForState,
         ViewerEvent.writeCommand, ViewerEvent.launchTerminal]) ∧
    (stateChecked = false →
      ViewerEvent.deployForState ∉ viewerMacroTrace stateChecked storageChecked) ∧
    startMacroDebuggerTrace true (Except.ok readBytes) (Except.ok compileBytes)
        (Except.ok deployBytes) =
      [SessionEvent.compileInvoked, SessionEvent.deployInvoked,
       SessionEvent.writeCommand, SessionEvent.launchTerminal] ∧
    (startMacroDebuggerTrace true (Except.ok readBytes) (Except.ok compileBytes)
        (Except.ok deployBytes)).count SessionEvent.deployInvoked = 1 := by
  have hmac : startMacroDebuggerTrace true (Except.ok readBytes) (Except.ok compileBytes)
      (Except.ok deployBytes) =
      [SessionEvent.compileInvoked, SessionEvent.deployInvoked,
       SessionEvent.writeCommand, SessionEvent.launchTerminal] := rfl
  refine ⟨?_, ?_, ?_, ?_, hmac, ?_⟩
  · cases stateChecked <;> cases storageChecked <;> decide
  · cases stateChecked <;> cases storageChecked <;> decide
  · cases stateChecked <;> cases storageChecked <;> decide
  · cases stateChecked <;> cases storageChecked <;> decide
  · rw [hmac]
    decide

/-- Witness for C6 at concrete sessions. -/
theorem c6_deployment_order_witness :
    viewerMacroTrace true false =
      [ViewerEvent.compileInvoked, ViewerEvent.deployForRuntime, ViewerEvent.deployForState,
       ViewerEvent.writeCommand, ViewerEvent.launchTerminal] ∧
    ViewerEvent.deployForState ∉ viewerMacroTrace false true ∧
    (startMacroDebuggerTrace true (Except.ok (str "src")) (Except.ok (str "0x60"))
        (Except.ok (str "0x55"))).count SessionEvent.deployInvoked = 1 :=
  ⟨(c6_deployment_order true false (str "src") (str "0x60") (str "0x55")).2.2.1 rfl,
   (c6_deployment_order false true (str "src") (str "0x60") (str "0x55")).2.2.2.1 rfl,
   (c6_deployment_order true true (str "src") (str "0x60") (str "0x55")).2.2.2.2.2⟩

/-- C8: whenever the installation check answers no, or any pipeline step
fails, no debug command is written or launched; a failing installation check
surfaces the actionable installation message and stops everything else, and
a failing step surfaces the fixed human-readable error message instead of
the raw error. -/
theorem c8_failures_never_launch (installed : Bool)
    (readResult compileResult deployResult : Except (List Char) (List Char))
    (h : installed = false ∨ readResult.isOk = false ∨ compileResult.isOk = false ∨
      deployResult.isOk = false) :
    SessionEvent.launchTerminal ∉
      startMacroDebuggerTrace installed readResult compileResult deployResult ∧
    SessionEvent.writeCommand ∉
      startMacroDebuggerTrace installed readResult compileResult deployResult ∧
    (installed = false →
      startMacroDebuggerTrace installed readResult compileResult deployResult =
        [SessionEvent.showInstallMessage]) ∧
    (installed = true →
      SessionEvent.reportError macroCompilationErrorMessage ∈
        startMacroDebuggerTrace installed readResult compileResult deployResult) := by
  cases installed <;>
    rcases readResult with e1 | v1 <;>
    rcases compileResult with e2 | v2 <;>
    rcases deployResult with e3 | v3 <;>
    simp_all [startMacroDebuggerTrace, Except.isOk, Except.toBool]

/-- Witness for C8 at a concrete failing session. -/
theorem c8_failures_never_launch_witness :
    SessionEvent.launchTerminal ∉
      startMacroDebuggerTrace true (Except.ok (str "src")) (Except.error (str "boom"))
        (Except.ok (str "rt")) ∧
    SessionEvent.writeCommand ∉
      startMacroDebuggerTrace true (Except.ok (str "src")) (Except.error (str "boom"))
        (Except.ok (str "rt")) ∧
    (true = false →
      startMacroDebuggerTrace true (Except.ok (str "src")) (Except.error (str "boom"))
        (Except.ok (str "rt")) = [SessionEvent.showInstallMessage]) ∧
    (true = true →
      SessionEvent.reportError macroCompilationErrorMessage ∈
        startMacroDebuggerTrace true (Except.ok (str "src")) (Except.error (str "boom"))
          (Except.ok (str "rt"))) :=
  c8_failures_never_launch true (Except.ok (str "src"))
    (Except.error (str "boom")) (Except.ok (str "rt"))
    (Or.inr (Or.inr (Or.inl rfl)))

/-! ## The composed debug command (`runMacroDebugger`, lines 148-188) -/

/-- Modelled from the spec: `formatEvenBytes` (debuggerUtils is not under
src/): hex calldata normalised to an even number of nibbles by left-padding
with a zero after the `0x` prefix. -/
def formatEvenBytes (v : List Char) : List Char :=
  if (v.drop 2).length % 2 = 1 then str "0x0" ++ v.drop 2 else v

/-- The composed hevm debug command (`runMacroDebugger`, macroDebugger.js
lines 163-179).  Backslash line continuations inside the template literal
contribute nothing, leaving the next line's four-space indentation between
fragments. -/
def hevmDebugCommand (runtimeBytecode contractAddr hevmCaller statePath
    calldataValue callValue : List Char)
    (stateChecked storageChecked calldataChecked callValueChecked : Bool)
    (mountedDrive : Option (List Char)) (cwd : List Char) : List Char :=
  str "hevm exec     --code " ++ runtimeBytecode ++
  str "     --address " ++ contractAddr ++
  str "     --caller " ++ hevmCaller ++
  str "     --gas 0xffffffff     " ++
  (if stateChecked || storageChecked then
    str "--state " ++
      (match mountedDrive with
       | some d => str "/mnt/" ++ d
       | none => []) ++
      cwd ++ str "/" ++ statePath
   else []) ++
  str "     " ++
  (if calldataChecked then str "--calldata " ++ formatEvenBytes calldataValue else []) ++
  str "     " ++
  (if callValueChecked then str "--value " ++ callValue else []) ++
  str "     --debug"

/-- Decidable check that no nonempty proper prefix of `n` is a suffix of `a`:
then no occurrence of `n` can start inside `a` and continue past it. -/
def noSpanSuffix (n a : List Char) : Bool :=
  (List.range n.length).all fun k => k = 0 || !((n.take k).isSuffixOf a)

theorem span_of_noSpanSuffix {n a : List Char} (h : noSpanSuffix n a = true)
    (b : List Char) : ∀ k, 0 < k → k < n.length →
    (n.take k).isSuffixOf a = true → (n.drop k).isPrefixOf b = false := by
  intro k hk1 hk2 hsuf
  rw [noSpanSuffix, List.all_eq_true] at h
  have h2 := h k (List.mem_range.mpr hk2)
  simp [Nat.pos_iff_ne_zero.mp hk1, hsuf] at h2

/-- Negative chaining specialised to the bare command shape: a dash-headed
clause absent from every literal fragment and never formable at a junction
is absent from the whole command. -/
theorem negChain (m runtimeBytecode contractAddr hevmCaller : List Char)
    (hb : '-' ∉ runtimeBytecode) (ha : '-' ∉ contractAddr) (hc : '-' ∉ hevmCaller)
    (htail : strContains ('-' :: m)
      (str "     --gas 0xffffffff     " ++
        (str "     " ++ (str "     " ++ str "     --debug"))) = false)
    (hp1 : strContains ('-' :: m) (str "hevm exec     --code ") = false)
    (hp2 : strContains ('-' :: m) (str "     --address ") = false)
    (hp3 : strContains ('-' :: m) (str "     --caller ") = false)
    (hn1 : noSpanSuffix ('-' :: m) (str "hevm exec     --code ") = true)
    (hn2 : noSpanSuffix ('-' :: m) (str "     --address ") = true)
    (hn3 : noSpanSuffix ('-' :: m) (str "     --caller ") = true) :
    strContains ('-' :: m)
      (str "hevm exec     --code " ++ (runtimeBytecode ++
        (str "     --address " ++ (contractAddr ++
          (str "     --caller " ++ (hevmCaller ++
            (str "     --gas 0xffffffff     " ++
              (str "     " ++ (str "     " ++ str "     --debug"))))))))) = false := by
  have h1 := strContains_append_eq_false_of_head '-' m hevmCaller _ hc htail
  have h2 := strContains_append_eq_false ('-' :: m) (str "     --caller ") _
    hp3 (span_of_noSpanSuffix hn3 _) h1
  have h3 := strContains_append_eq_false_of_head '-' m contractAddr _ ha h2
  have h4 := strContains_append_eq_false ('-' :: m) (str "     --address ") _
    hp2 (span_of_noSpanSuffix hn2 _) h3
  have h5 := strContains_append_eq_false_of_head '-' m runtimeBytecode _ hb h4
  exact strContains_append_eq_false ('-' :: m) (str "hevm exec     --code ") _
    hp1 (span_of_noSpanSuffix hn1 _) h5

/-- C7: with no state flag, no storage overrides, no calldata and no call
value, the composed command holds the code, address, caller, fixed gas
ceiling and debug clauses, and no state, calldata or value clause (the
interpolated hex fields hold no dash). -/
theorem c7_bare_debug_command (runtimeBytecode contractAddr hevmCaller statePath
    calldataValue callValue : List Char)
    (mountedDrive : Option (List Char)) (cwd : List Char)
    (hb : '-' ∉ runtimeBytecode) (ha : '-' ∉ contractAddr) (hc : '-' ∉ hevmCaller) :
    strContains (str "--code")
      (hevmDebugCommand runtimeBytecode contractAddr hevmCaller statePath
        calldataValue callValue false false false false mountedDrive cwd) = true ∧
    strContains (str "--address")
      (hevmDebugCommand runtimeBytecode contractAddr hevmCaller statePath
        calldataValue callValue false false false false mountedDrive cwd) = true ∧
    strContains (str "--caller")
      (hevmDebugCommand runtimeBytecode contractAddr hevmCaller statePath
        calldataValue callValue false false false false mountedDrive cwd) = true ∧
    strContains (str "--gas 0xffffffff")
      (hevmDebugCommand runtimeBytecode contractAddr hevmCaller statePath
        calldataValue callValue false false false false mountedDrive cwd) = true ∧
    strContains (str "--debug")
      (hevmDebugCommand runtimeBytecode contractAddr hevmCaller statePath
        calldataValue callValue false false false false mountedDrive cwd) = true ∧
    strContains (str "--state")
      (hevmDebugCommand runtimeBytecode contractAddr hevmCaller statePath
        calldataValue callValue false false false false mountedDrive cwd) = false ∧
    strContains (str "--calldata")
      (hevmDebugCommand runtimeBytecode contractAddr hevmCaller statePath
        calldataValue callValue false false false false mountedDrive cwd) = false ∧
    strContains (str "--value")
      (hevmDebugCommand runtimeBytecode contractAddr hevmCaller statePath
        calldataValue callValue false false false false mountedDrive cwd) = false := by
  have hcmd : hevmDebugCommand runtimeBytecode contractAddr hevmCaller statePath
      calldataValue callValue false false false false mountedDrive cwd =
      str "hevm exec     --code " ++ (runtimeBytecode ++
        (str "     --address " ++ (contractAddr ++
          (str "     --caller " ++ (hevmCaller ++
            (str "     --gas 0xffffffff     " ++
              (str "     " ++ (str "     " ++ str "     --debug")))))))) := by
    simp [hevmDebugCommand, List.append_assoc]
  rw [hcmd]
  have e1 : str "--state" = '-' :: str "-state" := by decide
  have e2 : str "--calldata" = '-' :: str "-calldata" := by decide
  have e3 : str "--value" = '-' :: str "-value" := by decide
  refine ⟨?_, ?_, ?_, ?_, ?_, ?_, ?_, ?_⟩
  · exact strContains_append_left _ _ _ (by decide)
  · refine strContains_append_right _ _ _ (strContains_append_right _ _ _ ?_)
    exact strContains_append_left _ _ _ (by decide)
  · refine strContains_append_right _ _ _ (strContains_append_right _ _ _
      (strContains_append_right _ _ _ (strContains_append_right _ _ _ ?_)))
    exact strContains_append_left _ _ _ (by decide)
  · refine strContains_append_right _ _ _ (strContains_append_right _ _ _
      (strContains_append_right _ _ _ (strContains_append_right _ _ _
        (strContains_append_right _ _ _ (strContains_append_right _ _ _ ?_)))))
    decide
  · refine strContains_append_right _ _ _ (strContains_append_right _ _ _
      (strContains_append_right _ _ _ (strContains_append_right _ _ _
        (strContains_append_right _ _ _ (strContains_append_right _ _ _ ?_)))))
    decide
  · rw [e1]
    exact negChain (str "-state") runtimeBytecode contractAddr hevmCaller hb ha hc
      (by decide) (by decide) (by decide) (by decide) (by decide) (by decide) (by decide)
  · rw [e2]
    exact negChain (str "-calldata") runtimeBytecode contractAddr hevmCaller hb ha hc
      (by decide) (by decide) (by decide) (by decide) (by decide) (by decide) (by decide)
  · rw [e3]
    exact negChain (str "-value") runtimeBytecode contractAddr hevmCaller hb ha hc
      (by decide) (by decide) (by decide) (by decide) (by decide) (by decide) (by decide)

/-- Witness for C7 at a concrete bare session. -/
theorem c7_bare_debug_command_witness :
    strContains (str "--code")
      (hevmDebugCommand (str "0x6005600401") (str "7bc087f4ef9d0dc15fef823bff9c78cc5cca8be0a8")
        (str "0x00000000000000000000000000000000000000C0de") (str "cache/huff_debug_state")
        [] [] false false false false none (str "/w")) = true ∧
    strContains (str "--address")
      (hevmDebugCommand (str "0x6005600401") (str "7bc087f4ef9d0dc15fef823bff9c78cc5cca8be0a8")
        (str "0x00000000000000000000000000000000000000C0de") (str "cache/huff_debug_state")
        [] [] false false false false none (str "/w")) = true ∧
    strContains (str "--caller")
      (hevmDebugCommand (str "0x6005600401") (str "7bc087f4ef9d0dc15fef823bff9c78cc5cca8be0a8")
        (str "0x00000000000000000000000000000000000000C0de") (str "cache/huff_debug_state")
        [] [] false false false false none (str "/w")) = true ∧
    strContains (str "--gas 0xffffffff")
      (hevmDebugCommand (str "0x6005600401") (str "7bc087f4ef9d0dc15fef823bff9c78cc5cca8be0a8")
        (str "0x00000000000000000000000000000000000000C0de") (str "cache/huff_debug_state")
        [] [] false false false false none (str "/w")) = true ∧
    strContains (str "--debug")
      (hevmDebugCommand (str "0x6005600401") (str "7bc087f4ef9d0dc15fef823bff9c78cc5cca8be0a8")
        (str "0x00000000000000000000000000000000000000C0de") (str "cache/huff_debug_state")
        [] [] false false false false none (str "/w")) = true ∧
    strContains (str "--state")
      (hevmDebugCommand (str "0x6005600401") (str "7bc087f4ef9d0dc15fef823bff9c78cc5cca8be0a8")
        (str "0x00000000000000000000000000000000000000C0de") (str "cache/huff_debug_state")
        [] [] false false false false none (str "/w")) = false ∧
    strContains (str "--calldata")
      (hevmDebugCommand (str "0x6005600401") (str "7bc087f4ef9d0dc15fef823bff9c78cc5cca8be0a8")
        (str "0x00000000000000000000000000000000000000C0de") (str "cache/huff_debug_state")
        [] [] false false false false none (str "/w")) = false ∧
    strContains (str "--value")
      (hevmDebugCommand (str "0x6005600401") (str "7bc087f4ef9d0dc15fef823bff9c78cc5cca8be0a8")
        (str "0x00000000000000000000000000000000000000C0de") (str "cache/huff_debug_state")
        [] [] false false false false none (str "/w")) = false :=
  c7_bare_debug_command (str "0x6005600401")
    (str "7bc087f4ef9d0dc15fef823bff9c78cc5cca8be0a8")
    (str "0x00000000000000000000000000000000000000C0de") (str "cache/huff_debug_state")
    [] [] none (str "/w") (by decide) (by decide) (by decide)
